import Mathlib

/-! Shallow embedding of the G1 remembered-set engine (g1RemSet.cpp):
card refinement (the concurrent path `G1RemSet::refine_card_concurrently`
and the in-pause path `G1RemSet::refine_card_during_gc`), the
collection-set remembered-set scan (`ScanRSClosure`), the pause lifecycle
(`oops_into_collection_set_do` / `cleanup_after_oops_into_collection_set_do`)
and the post-mark rebuild (`G1RebuildRemSetTask`).

Addresses are in heap words.  External collaborators (hot-card cache,
oop-iteration closures, heap-region lookup) are supplied as oracle
parameters in the environment structures; the card table is a total
function from card index to card value. -/

namespace G1

/-- Card-table byte values (CardTableModRefBS / G1SATBCardTableModRefBS). -/
inductive CardVal
  | clean
  | dirty
  | young
  | claimed
deriving DecidableEq

/-- CardTableModRefBS::card_size_in_words (512-byte cards, 8-byte words). -/
def card_size_in_words : Nat := 64

/-- Bytes per heap word (64-bit build). -/
def HeapWordSize : Nat := 8

/-- HeapRegion type. -/
inductive RegionType
  | free
  | young
  | old
  | humStart
  | humCont
deriving DecidableEq

/-- The fields of a HeapRegion consumed by g1RemSet.cpp. -/
structure Region where
  rtype : RegionType
  bottom : Nat
  top : Nat
  scanTop : Nat
  inCSet : Bool
deriving DecidableEq

/-- HeapRegion::is_old_or_humongous. -/
def Region.is_old_or_humongous (r : Region) : Bool :=
  match r.rtype with
  | RegionType.old => true
  | RegionType.humStart => true
  | RegionType.humCont => true
  | _ => false

/-- CardTableModRefBS::addr_for: first word address covered by a card index. -/
def addr_for (c : Nat) : Nat := c * card_size_in_words

/-- Observable events of one refinement invocation, in program order. -/
inductive Ev
  | cleanCard (c : Nat)
  | fence
  | iterate (c : Nat) (mrStart : Nat) (mrEnd : Nat)
  | storeDirty (c : Nat)
  | enqueueShared (c : Nat)
deriving DecidableEq

/-- The return point taken by refine_card_concurrently. -/
inductive RetPoint
  | notDirty
  | notOldHum
  | hotRetained
  | evictedNotOldHum
  | staleEmpty
  | unparsable
  | done
deriving DecidableEq

/-- Mutable state touched by the concurrent refinement path: the card
table, the counter `_conc_refine_cards` and the shared dirty-card queue. -/
structure ConcState where
  card : Nat → CardVal
  conc_refine_cards : Nat
  sharedDCQ : List Nat

/-- Environment of a concurrent refinement call: region lookup, the
hot-card cache (external; its insert result is an oracle), the result of
`oops_on_card_seq_iterate_careful` on a given card and trimmed region
(an oracle: true means the card was parsable and fully processed), and
whether a mutator concurrently re-dirtied the card between our clean
store and the redirty re-check. -/
structure ConcEnv where
  regionOf : Nat → Region
  hotEnabled : Bool
  hotInsert : Nat → Option Nat
  iterOk : Nat → Nat → Nat → Bool
  redirtiedDuringScan : Bool

/-- Store a single card-table byte. -/
def setCardByte (s : ConcState) (c : Nat) (v : CardVal) : ConcState :=
  ConcState.mk (fun i => if i = c then v else s.card i) s.conc_refine_cards s.sharedDCQ

/-- Result of a concurrent refinement invocation. -/
structure ConcOut where
  st : ConcState
  trace : List Ev
  ret : RetPoint

/-- Steps 5-8 of G1RemSet::refine_card_concurrently, after the card has
passed the dirty check, the region-type check and the hot-card cache:
read `scan_limit = r->top()`, return if the trimmed region is empty,
store CLEAN into the card byte, issue a full fence, iterate the oops on
the trimmed card region, and on iteration failure redirty and re-enqueue
the card under the shared dirty-card queue lock unless it was already
re-dirtied concurrently. -/
def refine_card_concurrently_scan (env : ConcEnv) (s : ConcState) (cp : Nat)
    (r : Region) : ConcOut :=
  let start := addr_for cp
  let scan_limit := r.top
  if scan_limit ≤ start then
    ConcOut.mk s [] RetPoint.staleEmpty
  else
    let s1 := setCardByte s cp CardVal.clean
    let mrE := min scan_limit (start + card_size_in_words)
    let pre : List Ev := [Ev.cleanCard cp, Ev.fence, Ev.iterate cp start mrE]
    let ok := env.iterOk cp start mrE
    let s2 := if env.redirtiedDuringScan then setCardByte s1 cp CardVal.dirty else s1
    if ok then
      ConcOut.mk
        (ConcState.mk s2.card (s2.conc_refine_cards + 1) s2.sharedDCQ)
        pre RetPoint.done
    else
      if s2.card cp ≠ CardVal.dirty then
        ConcOut.mk
          (ConcState.mk (setCardByte s2 cp CardVal.dirty).card
            s2.conc_refine_cards (s2.sharedDCQ ++ [cp]))
          (pre ++ [Ev.storeDirty cp, Ev.enqueueShared cp]) RetPoint.unparsable
      else
        ConcOut.mk s2 pre RetPoint.unparsable

/-- G1RemSet::refine_card_concurrently.  Early filters: card no longer
DIRTY; region not old-or-humongous; hot-card cache retained the card
(insert returned null) or evicted a different card whose region is not
old-or-humongous.  The surviving card is then cleaned and scanned. -/
def refine_card_concurrently (env : ConcEnv) (s : ConcState) (cp : Nat) : ConcOut :=
  if s.card cp ≠ CardVal.dirty then
    ConcOut.mk s [] RetPoint.notDirty
  else
    let start := addr_for cp
    let r := env.regionOf start
    if !r.is_old_or_humongous then
      ConcOut.mk s [] RetPoint.notOldHum
    else
      if env.hotEnabled then
        match env.hotInsert cp with
        | none => ConcOut.mk s [] RetPoint.hotRetained
        | some cp2 =>
          if cp2 = cp then
            refine_card_concurrently_scan env s cp r
          else
            let r2 := env.regionOf (addr_for cp2)
            if !r2.is_old_or_humongous then
              ConcOut.mk s [] RetPoint.evictedNotOldHum
            else
              refine_card_concurrently_scan env s cp2 r2
      else
        refine_card_concurrently_scan env s cp r

/-! ### In-pause refinement: G1RemSet::refine_card_during_gc -/

/-- State touched during in-pause refinement: card table, counter, and
the remembered-set entries added through the update closure, recorded as
pairs of a target region index and the inserted (source) card index. -/
structure PauseState where
  card : Nat → CardVal
  conc_refine_cards : Nat
  rs : List (Nat × Nat)

/-- Environment of an in-pause refinement call.  The effect of the
G1UpdateRSOrPushRefOopClosure iteration over a trimmed card region is an
oracle: `iterAdds` gives the remembered-set entries it inserts and
`iterHasRefs` whether it found references into the collection set. -/
structure PauseEnv where
  regionOf : Nat → Region
  iterAdds : Nat → Nat → Nat → List (Nat × Nat)
  iterHasRefs : Nat → Nat → Nat → Bool

/-- Result of refine_card_during_gc: the new state, the trimmed region
(`dirty_region`) that was actually iterated if the call got that far, and
the boolean `has_refs_into_cset` returned to the caller. -/
structure PauseOut where
  st : PauseState
  scanned : Option (Nat × Nat)
  result : Bool

/-- G1RemSet::refine_card_during_gc.  Early returns: card no longer
DIRTY (already scanned as part of the remembered sets); region not
old-or-humongous; region in the collection set.  Otherwise the card
region is trimmed to `r->scan_top()` (not `r->top()`: during a STW pause
GC allocation buffers past scan_top may be unparsable), the card is
cleaned, and the update-or-push closure is applied to the trimmed
region, its entries accumulated into the remembered sets. -/
def refine_card_during_gc (env : PauseEnv) (s : PauseState) (cp : Nat) : PauseOut :=
  if s.card cp ≠ CardVal.dirty then
    PauseOut.mk s none false
  else
    let start := addr_for cp
    let r := env.regionOf start
    if !r.is_old_or_humongous then
      PauseOut.mk s none false
    else
      if r.inCSet then
        PauseOut.mk s none false
      else
        let scan_limit := r.scanTop
        if scan_limit ≤ start then
          PauseOut.mk s none false
        else
          let s1 := PauseState.mk (fun i => if i = cp then CardVal.clean else s.card i)
            s.conc_refine_cards s.rs
          let mrE := min scan_limit (start + card_size_in_words)
          PauseOut.mk
            (PauseState.mk s1.card (s1.conc_refine_cards + 1)
              (s1.rs ++ env.iterAdds cp start mrE))
            (some (start, mrE))
            (env.iterHasRefs cp start mrE)

/-! ### Scanner: ScanRSClosure and G1RemSet::scanRS -/

/-- Card-table contents seen by the scanner. -/
def CT : Type := Nat → CardVal

/-- G1SATBCardTableModRefBS::is_card_dirty on a card value. -/
def is_card_dirty (v : CardVal) : Bool := v = CardVal.dirty

/-- G1SATBCardTableModRefBS::is_card_claimed on a card value. -/
def is_card_claimed (v : CardVal) : Bool := v = CardVal.claimed

/-- G1SATBCardTableModRefBS::set_card_claimed. -/
def set_card_claimed (ct : CT) (index : Nat) : CT :=
  fun i => if i = index then CardVal.claimed else ct i

/-- Observable events of the scan, in program order. -/
inductive ScanEv
  | setClaimed (index : Nat)
  | scanMem (index : Nat) (mrStart : Nat) (mrEnd : Nat)
  | codeRoots
  | setIterComplete
deriving DecidableEq

/-- ScanRSClosure::scanCard: intersect the card's memory with the
region's `[bottom, scan_top)`; if the intersection is non-empty and the
card is not already claimed, claim the card lazily and apply the
DirtyCardToOopClosure to the intersection. -/
def scanCard (ct : CT) (index : Nat) (r : Region) : CT × List ScanEv :=
  let cardStart := addr_for index
  let mrS := max r.bottom cardStart
  let mrE := min r.scanTop (cardStart + card_size_in_words)
  if mrS < mrE ∧ ¬ is_card_claimed (ct index) then
    (set_card_claimed ct index, [ScanEv.setClaimed index, ScanEv.scanMem index mrS mrE])
  else
    (ct, [])

/-- The per-card work of ScanRSClosure::doHeapRegion: resolve the card's
own region; skip it if that region is in the collection set or the card
is still DIRTY on the card table (it will be handled by updateRS);
otherwise scanCard. -/
def scan_card_step (regionOf : Nat → Region) (ct : CT) (index : Nat) : CT × List ScanEv :=
  let cardStart := addr_for index
  let cardRegion := regionOf cardStart
  if !cardRegion.inCSet && !is_card_dirty (ct index) then
    scanCard ct index cardRegion
  else
    (ct, [])

/-- The per-region remembered-set iteration state.  Modelled from the
spec: HeapRegionRemSet (heapRegionRemSet.hpp is not part of this
source file); the iterator has a `claimed` and a `complete` bit and an
atomic block-claim counter, `claim_iter()` is a single CAS from
unclaimed to claimed, and `iter_claimed_next(n)` returns monotonically
increasing claim offsets.  `rs_cards` is the sequence of card indices
the HeapRegionRemSetIterator yields. -/
structure HRRS where
  claimed : Bool
  complete : Bool
  iter_claimed : Nat
  rs_cards : List Nat

/-- Modelled from the spec: HeapRegionRemSet::claim_iter, a single CAS
from unclaimed to claimed returning whether this caller won. -/
def claim_iter (s : HRRS) : Bool × HRRS :=
  if s.claimed then (false, s) else (true, HRRS.mk true s.complete s.iter_claimed s.rs_cards)

/-- Modelled from the spec: HeapRegionRemSet::iter_is_complete. -/
def iter_is_complete (s : HRRS) : Bool := s.complete

/-- Modelled from the spec: HeapRegionRemSet::set_iter_complete. -/
def set_iter_complete (s : HRRS) : HRRS :=
  HRRS.mk s.claimed true s.iter_claimed s.rs_cards

/-- Modelled from the spec: HeapRegionRemSet::iter_claimed_next, the
atomic fetch-and-add of the block-claim counter. -/
def iter_claimed_next (s : HRRS) (sz : Nat) : Nat × HRRS :=
  (s.iter_claimed, HRRS.mk s.claimed s.complete (s.iter_claimed + sz) s.rs_cards)

/-- The card loop of ScanRSClosure::doHeapRegion: walk the iterator's
cards with a running `current_card` counter, claiming blocks of
`_block_size` cards through `iter_claimed_next` and processing exactly
the cards whose sequence index falls into a block this worker claimed. -/
def scan_rs_cards (regionOf : Nat → Region) (blockSize : Nat) :
    List Nat → Nat → Nat → HRRS → CT → HRRS × CT × List ScanEv
  | [], _, _, s, ct => (s, ct, [])
  | cidx :: rest, currentCard, jumpTo, s, ct =>
    let step := if jumpTo + blockSize ≤ currentCard then iter_claimed_next s blockSize
      else (jumpTo, s)
    if currentCard < step.1 then
      scan_rs_cards regionOf blockSize rest (currentCard + 1) step.1 step.2 ct
    else
      let pc := scan_card_step regionOf ct cidx
      let tail := scan_rs_cards regionOf blockSize rest (currentCard + 1) step.1 step.2 pc.1
      (tail.1, tail.2.1, pc.2 ++ tail.2.2)

/-- ScanRSClosure::doHeapRegion.  If the region's remembered-set
iterator is already complete, return immediately.  In Phase A (not
`_try_claimed`) attempt `claim_iter` and return if another worker owns
the region.  Otherwise drain the remembered set's cards in claimed
blocks; a Phase A claimant then scans the region's strong code roots and
marks the iterator complete. -/
def doHeapRegion (regionOf : Nat → Region) (blockSize : Nat) (tryClaimed : Bool)
    (s : HRRS) (ct : CT) : HRRS × CT × List ScanEv :=
  if iter_is_complete s then
    (s, ct, [])
  else
    let cl := if tryClaimed then (true, s) else claim_iter s
    if cl.1 then
      let jt := iter_claimed_next cl.2 blockSize
      let body := scan_rs_cards regionOf blockSize jt.2.rs_cards 0 jt.1 jt.2 ct
      if tryClaimed then
        body
      else
        (set_iter_complete body.1, body.2.1,
          body.2.2 ++ [ScanEv.codeRoots, ScanEv.setIterComplete])
    else
      (cl.2, ct, [])

/-- One pass of G1CollectedHeap::collection_set_iterate_from over the
collection-set regions' remembered sets (the closure stops only on
completion of the list; doHeapRegion always returns false). -/
def collection_set_iterate (regionOf : Nat → Region) (blockSize : Nat) (tryClaimed : Bool) :
    List HRRS → CT → List HRRS × CT × List ScanEv
  | [], ct => ([], ct, [])
  | hrrs :: rest, ct =>
    let hd := doHeapRegion regionOf blockSize tryClaimed hrrs ct
    let tl := collection_set_iterate regionOf blockSize tryClaimed rest hd.2.1
    (hd.1 :: tl.1, tl.2.1, hd.2.2 ++ tl.2.2)

/-- G1RemSet::scanRS: iterate the collection set twice, first with
`_try_claimed` unset (Phase A), then with it set (Phase B). -/
def scanRS (regionOf : Nat → Region) (blockSize : Nat) (cset : List HRRS) (ct : CT) :
    List HRRS × CT × List ScanEv :=
  let pA := collection_set_iterate regionOf blockSize false cset ct
  let pB := collection_set_iterate regionOf blockSize true pA.1 pA.2.1
  (pB.1, pB.2.1, pA.2.2 ++ pB.2.2)

/-- A sequence of GC workers each invoking Phase A doHeapRegion on the
same region in turn; returns the final state and how many workers
executed the drain body (recognisable by a non-empty event list). -/
def run_phase_A (regionOf : Nat → Region) (blockSize : Nat) :
    Nat → HRRS → CT → HRRS × CT × Nat
  | 0, s, ct => (s, ct, 0)
  | n + 1, s, ct =>
    let o := doHeapRegion regionOf blockSize false s ct
    let rest := run_phase_A regionOf blockSize n o.1 o.2.1
    (rest.1, rest.2.1, (if o.2.2 = [] then 0 else 1) + rest.2.2)

/-! ### Pause lifecycle: oops_into_collection_set_do and
cleanup_after_oops_into_collection_set_do -/

/-- The G1RemSet/G1CollectedHeap state the pause lifecycle manipulates:
the per-worker closure slots `_cset_rs_update_cl` (a closure is
identified by a number), the card table, `_cards_scanned` (None when
freed), `_total_cards_scanned`, the refine-CTE concurrency flag, the
completed buffers of the into-CSet dirty-card queue set, the main
dirty-card queue set, and whether evacuation failed. -/
structure LifecycleState where
  cset_rs_update_cl : List (Option Nat)
  card : Nat → CardVal
  cards_scanned : Option (List Nat)
  total_cards_scanned : Nat
  refine_concurrent : Bool
  into_cset_buffers : List Nat
  main_dcqs : List Nat
  evacuation_failed : Bool

/-- Modelled from the spec: G1CollectedHeap::cleanUpCardTable (not part
of this source file) sets every card-table byte back to CLEAN ("Set all
cards back to clean."). -/
def cleanUpCardTable (st : LifecycleState) : LifecycleState :=
  LifecycleState.mk st.cset_rs_update_cl (fun _ => CardVal.clean) st.cards_scanned
    st.total_cards_scanned st.refine_concurrent st.into_cset_buffers st.main_dcqs
    st.evacuation_failed

/-- G1RemSet::cleanup_after_oops_into_collection_set_do: sum and free
`_cards_scanned`, restore concurrent refinement, reset the card table to
CLEAN, and if evacuation failed merge the into-CSet completed buffers
into the main dirty-card queue set before clearing the into-CSet set. -/
def cleanup_after_oops_into_collection_set_do (st : LifecycleState) : LifecycleState :=
  let total := (st.cards_scanned.getD []).sum
  let st1 := LifecycleState.mk st.cset_rs_update_cl st.card none total true
    st.into_cset_buffers st.main_dcqs st.evacuation_failed
  let st2 := cleanUpCardTable st1
  let st3 :=
    if st2.evacuation_failed then
      LifecycleState.mk st2.cset_rs_update_cl st2.card st2.cards_scanned
        st2.total_cards_scanned st2.refine_concurrent st2.into_cset_buffers
        (st2.main_dcqs ++ st2.into_cset_buffers) st2.evacuation_failed
    else st2
  LifecycleState.mk st3.cset_rs_update_cl st3.card st3.cards_scanned
    st3.total_cards_scanned st3.refine_concurrent [] st3.main_dcqs
    st3.evacuation_failed

/-- G1RemSet::oops_into_collection_set_do for one worker: stash the
evacuation closure `oc` into `_cset_rs_update_cl[worker_i]`, run the
body (updateRS followed by scanRS, supplied as a state transformer),
then clear the slot again before returning. -/
def oops_into_collection_set_do (body : LifecycleState → LifecycleState)
    (worker_i : Nat) (oc : Nat) (st : LifecycleState) : LifecycleState :=
  let st1 := LifecycleState.mk (st.cset_rs_update_cl.set worker_i (some oc)) st.card
    st.cards_scanned st.total_cards_scanned st.refine_concurrent st.into_cset_buffers
    st.main_dcqs st.evacuation_failed
  let st2 := body st1
  LifecycleState.mk (st2.cset_rs_update_cl.set worker_i none) st2.card
    st2.cards_scanned st2.total_cards_scanned st2.refine_concurrent
    st2.into_cset_buffers st2.main_dcqs st2.evacuation_failed

/-! ### Rebuilder: G1RebuildRemSetTask -/

/-- An object as the rebuilder sees it: its size in words, whether it is
an objArray, and whether the next mark bitmap marks its start address. -/
structure Obj where
  size : Nat
  isArray : Bool
  marked : Bool
deriving DecidableEq

/-- The region content the rebuilder walks: `objs` are the objects laid
out contiguously from `bottom` up to the top-at-rebuild-start. -/
structure RegionModel where
  isHum : Bool
  bottom : Nat
  objs : List Obj

/-- G1RebuildRemSetHeapRegionClosure::is_humongous_live: a humongous
object is live iff the bitmap marks it or TARS is larger than TAMS. -/
def is_humongous_live (marked : Bool) (tams tars : Nat) : Bool :=
  marked || decide (tars > tams)

/-- The number of words G1RebuildRemSetHeapRegionClosure::
scan_for_references actually scans for the object at `pos` against the
MemRegion `[mrS, mrE)`: non-objArrays and objArrays contained in the
MemRegion are scanned whole; an objArray crossing it is scanned only on
the intersection. -/
def scan_for_references_words (o : Obj) (pos mrS mrE : Nat) : Nat :=
  if !o.isArray || (mrS ≤ pos && pos + o.size ≤ mrE) then o.size
  else min (pos + o.size) mrE - max pos mrS

/-- The LiveObjIterator loop of rebuild_rem_set_in_region, restricted to
its marked-words accounting: starting from the first object extending
into `[mrS, mrE)`, visit each live object (below TAMS: marked on the
bitmap; at or above TAMS: implicitly live), where an object straddling
`mrS` is only re-visited if it is an objArray, and accumulate the
scanned words of the visited objects that start below TAMS. -/
def rebuild_marked_words (tams mrS mrE : Nat) : Nat → List Obj → Nat
  | _, [] => 0
  | pos, o :: rest =>
    if pos + o.size ≤ mrS then
      rebuild_marked_words tams mrS mrE (pos + o.size) rest
    else if mrE ≤ pos then 0
    else
      let live := decide (tams ≤ pos) || o.marked
      let visited := live && (decide (mrS ≤ pos) || o.isArray)
      let contrib := if visited && decide (pos < tams) then
        scan_for_references_words o pos mrS mrE else 0
      contrib + rebuild_marked_words tams mrS mrE (pos + o.size) rest

/-- Result of one rebuild_rem_set_in_region call: the MemRegion the
humongous object's references were iterated over (if the humongous
branch iterated at all) and the returned marked bytes. -/
structure RebuildOut where
  humIter : Option (Nat × Nat)
  markedBytes : Nat
deriving DecidableEq

/-- G1RebuildRemSetHeapRegionClosure::rebuild_rem_set_in_region on the
chunk `[mrS, mrE)`.  A humongous region holds the single object at the
humongous start region's bottom: if live, its references are iterated
restricted to the chunk's MemRegion and the marked bytes are the chunk's
byte size when TAMS is not the region bottom; if dead, nothing is
iterated and zero is returned.  Otherwise the live objects of the chunk
are walked and the words scanned for objects below TAMS are returned as
bytes. -/
def rebuild_rem_set_in_region (tams tars : Nat) (hr : RegionModel)
    (mrS mrE : Nat) : RebuildOut :=
  if hr.isHum then
    match hr.objs with
    | o :: _ =>
      if is_humongous_live o.marked tams tars then
        RebuildOut.mk (some (mrS, mrE))
          (if tams ≠ hr.bottom then (mrE - mrS) * HeapWordSize else 0)
      else
        RebuildOut.mk none 0
    | [] => RebuildOut.mk none 0
  else
    RebuildOut.mk none
      (rebuild_marked_words tams mrS mrE hr.bottom hr.objs * HeapWordSize)

/-- The chunk loop of G1RebuildRemSetHeapRegionClosure::doHeapRegion for
a region whose rebuild is neither aborted nor eagerly reclaimed (TARS
stays fixed and non-null): sum the marked bytes of
rebuild_rem_set_in_region over the chunks
`MemRegion(bottom, TARS) ∩ MemRegion(cur, chunk_words)` for
`cur = bottom, bottom + chunk_words, ...`; the loop exits as soon as the
next chunk is empty, i.e. when `cur` reaches TARS. -/
def rebuild_chunks (tams tars chunkWords : Nat) (hr : RegionModel) (cur : Nat) : Nat :=
  if _h : cur < tars ∧ 0 < chunkWords then
    (rebuild_rem_set_in_region tams tars hr (max hr.bottom cur)
      (min (cur + chunkWords) tars)).markedBytes +
    rebuild_chunks tams tars chunkWords hr (cur + chunkWords)
  else 0
termination_by tars - cur
decreasing_by omega

/-- The words of bitmap-marked objects starting below TAMS, walking the
object list from `pos`. -/
def marked_words_below (tams : Nat) : Nat → List Obj → Nat
  | _, [] => 0
  | pos, o :: rest =>
    (if decide (pos < tams) && o.marked then o.size else 0) +
      marked_words_below tams (pos + o.size) rest

/-- Modelled from the spec: HeapRegion::next_marked_bytes (not part of
this source file), the bytes the mark phase recorded as live below TAMS,
i.e. the total size of the bitmap-marked objects starting below TAMS. -/
def next_marked_bytes (tams : Nat) (hr : RegionModel) : Nat :=
  marked_words_below tams hr.bottom hr.objs * HeapWordSize

/-- Total size in words of a list of objects. -/
def objs_size : List Obj → Nat
  | [] => 0
  | o :: rest => o.size + objs_size rest

/-- The contribution of the single object at `pos` to the marked-words
accounting of the chunk `[mrS, mrE)` (the per-object unfolding of the
rebuild_marked_words recursion). -/
def perObjContrib (tams mrS mrE pos : Nat) (o : Obj) : Nat :=
  if pos + o.size ≤ mrS ∨ mrE ≤ pos then 0
  else if ((decide (tams ≤ pos) || o.marked) && (decide (mrS ≤ pos) || o.isArray))
      && decide (pos < tams) then
    scan_for_references_words o pos mrS mrE
  else 0

/-- Sum of per-object contributions along an object list. -/
def sum_contrib (tams mrS mrE : Nat) : Nat → List Obj → Nat
  | _, [] => 0
  | pos, o :: rest =>
    perObjContrib tams mrS mrE pos o + sum_contrib tams mrS mrE (pos + o.size) rest

/-- The chunk contributions of one object summed over all chunks. -/
def obj_chunk_sum (tams tars chunkWords pos : Nat) (o : Obj) (cur : Nat) : Nat :=
  if _h : cur < tars ∧ 0 < chunkWords then
    perObjContrib tams cur (min (cur + chunkWords) tars) pos o +
    obj_chunk_sum tams tars chunkWords pos o (cur + chunkWords)
  else 0
termination_by tars - cur
decreasing_by omega

/-- The per-chunk object-list sums over all chunks. -/
def chunks_sum (tams tars chunkWords pos0 : Nat) (objs : List Obj) (cur : Nat) : Nat :=
  if _h : cur < tars ∧ 0 < chunkWords then
    sum_contrib tams cur (min (cur + chunkWords) tars) pos0 objs +
    chunks_sum tams tars chunkWords pos0 objs (cur + chunkWords)
  else 0
termination_by tars - cur
decreasing_by omega

/-! ### Theorems -/

/-- C2: during a pause, a card whose containing region is in the
collection set makes refine_card_during_gc return false with no state
change (so no remembered-set entry is added); for cards whose region is
outside the CSet the iterated region is trimmed at the region's
scan_top (not top); and when scan_top is at or below the card start the
call also returns false with no side effects. -/
theorem refine_during_gc_cset_filter_and_scan_top :
    (∀ env : PauseEnv, ∀ s cp, (env.regionOf (addr_for cp)).inCSet = true →
      refine_card_during_gc env s cp = PauseOut.mk s none false) ∧
    (∀ env : PauseEnv, ∀ s cp,
      (env.regionOf (addr_for cp)).scanTop ≤ addr_for cp →
      refine_card_during_gc env s cp = PauseOut.mk s none false) ∧
    (∀ env : PauseEnv, ∀ s cp mr,
      (refine_card_during_gc env s cp).scanned = some mr →
      (env.regionOf (addr_for cp)).inCSet = false ∧
      mr = (addr_for cp,
        min (env.regionOf (addr_for cp)).scanTop (addr_for cp + card_size_in_words))) := by
  refine ⟨?_, ?_, ?_⟩
  · intro env s cp h
    by_cases hd : s.card cp = CardVal.dirty
    · by_cases ho : (env.regionOf (addr_for cp)).is_old_or_humongous = true
      · simp [refine_card_during_gc, hd, ho, h]
      · simp only [Bool.not_eq_true] at ho
        simp [refine_card_during_gc, hd, ho]
    · simp [refine_card_during_gc, hd]
  · intro env s cp h
    by_cases hd : s.card cp = CardVal.dirty
    · by_cases ho : (env.regionOf (addr_for cp)).is_old_or_humongous = true
      · by_cases hc : (env.regionOf (addr_for cp)).inCSet = true
        · simp [refine_card_during_gc, hd, ho, hc]
        · simp only [Bool.not_eq_true] at hc
          simp [refine_card_during_gc, hd, ho, hc, h]
      · simp only [Bool.not_eq_true] at ho
        simp [refine_card_during_gc, hd, ho]
    · simp [refine_card_during_gc, hd]
  · intro env s cp mr h
    by_cases hd : s.card cp = CardVal.dirty
    · by_cases ho : (env.regionOf (addr_for cp)).is_old_or_humongous = true
      · by_cases hc : (env.regionOf (addr_for cp)).inCSet = true
        · simp [refine_card_during_gc, hd, ho, hc] at h
        · simp only [Bool.not_eq_true] at hc
          by_cases hs : (env.regionOf (addr_for cp)).scanTop ≤ addr_for cp
          · simp [refine_card_during_gc, hd, ho, hc, hs] at h
          · simp [refine_card_during_gc, hd, ho, hc, hs] at h
            exact ⟨hc, h.symm⟩
      · simp only [Bool.not_eq_true] at ho
        simp [refine_card_during_gc, hd, ho] at h
    · simp [refine_card_during_gc, hd] at h

/-- Witness for C2 at concrete inputs: a region inside the CSet, a
stale card with scan_top at the region bottom, and a normal old-region
card whose scan gets trimmed to scan_top. -/
theorem refine_during_gc_cset_filter_and_scan_top_witness :
    refine_card_during_gc
      (PauseEnv.mk (fun _ => Region.mk RegionType.old 0 1000 1000 true)
        (fun _ _ _ => []) (fun _ _ _ => false))
      (PauseState.mk (fun _ => CardVal.dirty) 0 []) 0 =
      PauseOut.mk (PauseState.mk (fun _ => CardVal.dirty) 0 []) none false ∧
    refine_card_during_gc
      (PauseEnv.mk (fun _ => Region.mk RegionType.old 0 1000 0 false)
        (fun _ _ _ => []) (fun _ _ _ => false))
      (PauseState.mk (fun _ => CardVal.dirty) 0 []) 1 =
      PauseOut.mk (PauseState.mk (fun _ => CardVal.dirty) 0 []) none false ∧
    ((Region.mk RegionType.old 0 1000 80 false).inCSet = false ∧
      ((0 : Nat), (64 : Nat)) = (addr_for 0,
        min (Region.mk RegionType.old 0 1000 80 false).scanTop
          (addr_for 0 + card_size_in_words))) := by
  refine ⟨?_, ?_, ?_⟩
  · exact refine_during_gc_cset_filter_and_scan_top.1 _ _ 0 rfl
  · exact refine_during_gc_cset_filter_and_scan_top.2.1 _ _ 1 (by decide)
  · exact refine_during_gc_cset_filter_and_scan_top.2.2
      (PauseEnv.mk (fun _ => Region.mk RegionType.old 0 1000 80 false)
        (fun _ _ _ => []) (fun _ _ _ => false))
      (PauseState.mk (fun _ => CardVal.dirty) 0 []) 0 (0, 64) (by decide)

/-- An old region covering words `[0, 1000)` with stable top. -/
def oldRegion1000 : Region := Region.mk RegionType.old 0 1000 1000 false

/-- A free (recycled) region. -/
def freeRegion0 : Region := Region.mk RegionType.free 0 0 0 false

/-- Concurrent environment: old region, hot cache off, parsable cards,
no concurrent re-dirtying. -/
def envConcOld : ConcEnv :=
  ConcEnv.mk (fun _ => oldRegion1000) false (fun _ => none) (fun _ _ _ => true) false

/-- Concurrent environment whose object iteration reports the card
unparsable. -/
def envConcOldStale : ConcEnv :=
  ConcEnv.mk (fun _ => oldRegion1000) false (fun _ => none) (fun _ _ _ => false) false

/-- Concurrent environment over a freed region. -/
def envConcFree : ConcEnv :=
  ConcEnv.mk (fun _ => freeRegion0) false (fun _ => none) (fun _ _ _ => true) false

/-- A card table with every card DIRTY and empty queues. -/
def sAllDirty : ConcState := ConcState.mk (fun _ => CardVal.dirty) 0 []

/-- When the concurrent path reaches its scan tail with a non-empty
trimmed region, the trace is: clean the card, fence, iterate the trimmed
region, and the card is never cleaned again. -/
theorem refine_card_concurrently_scan_trace (env : ConcEnv) (s : ConcState)
    (cp : Nat) (r : Region) (h : addr_for cp < r.top) :
    ∃ rest, (refine_card_concurrently_scan env s cp r).trace =
      Ev.cleanCard cp :: Ev.fence :: Ev.iterate cp (addr_for cp)
        (min r.top (addr_for cp + card_size_in_words)) :: rest ∧
      Ev.cleanCard cp ∉ rest := by
  have hne : ¬ r.top ≤ addr_for cp := by omega
  cases hok : env.iterOk cp (addr_for cp) (min r.top (addr_for cp + card_size_in_words))
  · cases hred : env.redirtiedDuringScan
    · refine ⟨[Ev.storeDirty cp, Ev.enqueueShared cp], ?_, by simp⟩
      simp [refine_card_concurrently_scan, hne, hok, hred, setCardByte]
    · refine ⟨[], ?_, by simp⟩
      simp [refine_card_concurrently_scan, hne, hok, hred, setCardByte]
  · refine ⟨[], ?_, by simp⟩
    simp [refine_card_concurrently_scan, hne, hok]

/-- When the early filters pass (card DIRTY, region old-or-humongous,
hot-card cache disabled or returning the same card), the concurrent
path runs its scan tail on the original card and region. -/
theorem refine_card_concurrently_reaches_scan (env : ConcEnv) (s : ConcState)
    (cp : Nat)
    (h1 : s.card cp = CardVal.dirty)
    (h2 : (env.regionOf (addr_for cp)).is_old_or_humongous = true)
    (h3 : env.hotEnabled = true → env.hotInsert cp = some cp) :
    refine_card_concurrently env s cp =
      refine_card_concurrently_scan env s cp (env.regionOf (addr_for cp)) := by
  cases hhot : env.hotEnabled
  · simp [refine_card_concurrently, h1, h2, hhot]
  · simp [refine_card_concurrently, h1, h2, hhot, h3 hhot]

/-- C1: for a card passing all the earlier filters of
refine_card_concurrently (DIRTY on entry, old-or-humongous region, not
retained by the hot-card cache, non-empty trimmed region) the card byte
is cleaned exactly once, and the full store-load fence sits between the
clean and the iteration of the card's referenced objects. -/
theorem refine_concurrently_clean_once_then_fence_then_iterate
    (env : ConcEnv) (s : ConcState) (cp : Nat)
    (h1 : s.card cp = CardVal.dirty)
    (h2 : (env.regionOf (addr_for cp)).is_old_or_humongous = true)
    (h3 : env.hotEnabled = true → env.hotInsert cp = some cp)
    (h4 : addr_for cp < (env.regionOf (addr_for cp)).top) :
    ∃ rest, (refine_card_concurrently env s cp).trace =
      Ev.cleanCard cp :: Ev.fence :: Ev.iterate cp (addr_for cp)
        (min (env.regionOf (addr_for cp)).top (addr_for cp + card_size_in_words)) :: rest ∧
      Ev.cleanCard cp ∉ rest := by
  rw [refine_card_concurrently_reaches_scan env s cp h1 h2 h3]
  exact refine_card_concurrently_scan_trace env s cp _ h4

/-- Witness for C1: the filters hold for card 0 over a dirty card table
and an old region, and the clean-fence-iterate trace is produced. -/
theorem refine_concurrently_clean_once_then_fence_then_iterate_witness :
    ∃ rest, (refine_card_concurrently envConcOld sAllDirty 0).trace =
      Ev.cleanCard 0 :: Ev.fence :: Ev.iterate 0 (addr_for 0)
        (min (envConcOld.regionOf (addr_for 0)).top
          (addr_for 0 + card_size_in_words)) :: rest ∧
      Ev.cleanCard 0 ∉ rest :=
  refine_concurrently_clean_once_then_fence_then_iterate envConcOld sAllDirty 0
    rfl rfl (fun h => absurd h (by decide)) (by decide)

/-- C5: when the object iteration reports the card unparsable, the card
is redirtied and re-enqueued onto the shared dirty-card queue exactly
once; if a mutator already re-dirtied the card concurrently, neither the
DIRTY store nor the enqueue happens. -/
theorem refine_concurrently_redirty_exactly_once
    (env : ConcEnv) (s : ConcState) (cp : Nat)
    (h1 : s.card cp = CardVal.dirty)
    (h2 : (env.regionOf (addr_for cp)).is_old_or_humongous = true)
    (h3 : env.hotEnabled = true → env.hotInsert cp = some cp)
    (h4 : addr_for cp < (env.regionOf (addr_for cp)).top)
    (h5 : env.iterOk cp (addr_for cp)
      (min (env.regionOf (addr_for cp)).top (addr_for cp + card_size_in_words)) = false) :
    (env.redirtiedDuringScan = false →
      (refine_card_concurrently env s cp).st.card cp = CardVal.dirty ∧
      (refine_card_concurrently env s cp).st.sharedDCQ = s.sharedDCQ ++ [cp] ∧
      (refine_card_concurrently env s cp).trace.count (Ev.enqueueShared cp) = 1 ∧
      (refine_card_concurrently env s cp).trace.count (Ev.storeDirty cp) = 1) ∧
    (env.redirtiedDuringScan = true →
      (refine_card_concurrently env s cp).st.card cp = CardVal.dirty ∧
      (refine_card_concurrently env s cp).st.sharedDCQ = s.sharedDCQ ∧
      Ev.enqueueShared cp ∉ (refine_card_concurrently env s cp).trace ∧
      Ev.storeDirty cp ∉ (refine_card_concurrently env s cp).trace) := by
  rw [refine_card_concurrently_reaches_scan env s cp h1 h2 h3]
  constructor
  · intro h6
    simp only [refine_card_concurrently_scan]
    rw [if_neg (by omega)]
    simp [h5, h6, setCardByte, List.count_cons]
  · intro h6
    simp only [refine_card_concurrently_scan]
    rw [if_neg (by omega)]
    simp [h5, h6, setCardByte]

/-- Witness for C5: card 0 of a dirty card table over an old region with
an unparsable scan and no concurrent re-dirtying is redirtied and
enqueued once. -/
theorem refine_concurrently_redirty_exactly_once_witness :
    (refine_card_concurrently envConcOldStale sAllDirty 0).st.card 0 = CardVal.dirty ∧
    (refine_card_concurrently envConcOldStale sAllDirty 0).st.sharedDCQ =
      sAllDirty.sharedDCQ ++ [0] ∧
    (refine_card_concurrently envConcOldStale sAllDirty 0).trace.count
      (Ev.enqueueShared 0) = 1 ∧
    (refine_card_concurrently envConcOldStale sAllDirty 0).trace.count
      (Ev.storeDirty 0) = 1 :=
  (refine_concurrently_redirty_exactly_once envConcOldStale sAllDirty 0
    rfl rfl (fun h => absurd h (by decide)) (by decide) rfl).1 rfl

/-- Counterexample to C9 as stated: when the first invocation returns at
the region-type filter (a freed region), the card byte stays DIRTY, so
the second invocation does not observe a non-DIRTY byte and does not
return at the initial dirty check. -/
theorem refine_concurrently_twice_observes_dirty_counterexample :
    (refine_card_concurrently envConcFree sAllDirty 0).st.card 0 = CardVal.dirty ∧
    (refine_card_concurrently envConcFree
      (refine_card_concurrently envConcFree sAllDirty 0).st 0).ret = RetPoint.notOldHum ∧
    RetPoint.notOldHum ≠ RetPoint.notDirty := by
  decide

/-- C9 (amended): if the first invocation passes all filters and its
object iteration completes successfully with no concurrent re-dirtying,
then a second invocation without intervening dirtying observes a
non-DIRTY card byte and returns at the initial check with no side
effects. -/
theorem refine_concurrently_second_call_no_op_after_processed
    (env : ConcEnv) (s : ConcState) (cp : Nat)
    (h1 : s.card cp = CardVal.dirty)
    (h2 : (env.regionOf (addr_for cp)).is_old_or_humongous = true)
    (h3 : env.hotEnabled = true → env.hotInsert cp = some cp)
    (h4 : addr_for cp < (env.regionOf (addr_for cp)).top)
    (h5 : env.iterOk cp (addr_for cp)
      (min (env.regionOf (addr_for cp)).top (addr_for cp + card_size_in_words)) = true)
    (h6 : env.redirtiedDuringScan = false) :
    (refine_card_concurrently env s cp).st.card cp = CardVal.clean ∧
    refine_card_concurrently env (refine_card_concurrently env s cp).st cp =
      ConcOut.mk (refine_card_concurrently env s cp).st [] RetPoint.notDirty := by
  have hcard : (refine_card_concurrently env s cp).st.card cp = CardVal.clean := by
    rw [refine_card_concurrently_reaches_scan env s cp h1 h2 h3]
    simp only [refine_card_concurrently_scan]
    rw [if_neg (by omega)]
    simp [h5, h6, setCardByte]
  refine ⟨hcard, ?_⟩
  generalize hst : (refine_card_concurrently env s cp).st = st1 at hcard ⊢
  simp [refine_card_concurrently, hcard]

/-- Witness for C9's amended claim at card 0 over an old region with a
successful scan. -/
theorem refine_concurrently_second_call_no_op_after_processed_witness :
    (refine_card_concurrently envConcOld sAllDirty 0).st.card 0 = CardVal.clean ∧
    refine_card_concurrently envConcOld (refine_card_concurrently envConcOld sAllDirty 0).st 0 =
      ConcOut.mk (refine_card_concurrently envConcOld sAllDirty 0).st [] RetPoint.notDirty :=
  refine_concurrently_second_call_no_op_after_processed envConcOld sAllDirty 0
    rfl rfl (fun h => absurd h (by decide)) (by decide) rfl rfl

/-- The scan tail of the concurrent path bumps `_conc_refine_cards`
exactly when it ends at RetPoint.done. -/
theorem refine_card_concurrently_scan_count (env : ConcEnv) (s : ConcState)
    (cp : Nat) (r : Region) :
    (refine_card_concurrently_scan env s cp r).st.conc_refine_cards =
      (if (refine_card_concurrently_scan env s cp r).ret = RetPoint.done then
        s.conc_refine_cards + 1 else s.conc_refine_cards) := by
  simp only [refine_card_concurrently_scan]
  split
  · simp
  · split
    · split <;> simp [setCardByte]
    · split
      · split <;> simp [setCardByte]
      · split <;> simp [setCardByte]

/-- C3: characterization of the scanner's per-card work.  A card drawn
from a CSet region's remembered set is scanned exactly when its own
containing region is not in the collection set, it is not DIRTY on the
card table, the intersection of the card's memory with the region's
`[bottom, scan_top)` is non-empty, and its CLAIMED bit is not already
set; in that case the CLAIMED bit is set first and the scanned memory is
exactly that intersection; otherwise nothing changes. -/
theorem scan_card_step_characterization (regionOf : Nat → Region) (ct : CT) (index : Nat) :
    scan_card_step regionOf ct index =
      if (regionOf (addr_for index)).inCSet = false ∧ ct index ≠ CardVal.dirty ∧
          max (regionOf (addr_for index)).bottom (addr_for index) <
            min (regionOf (addr_for index)).scanTop (addr_for index + card_size_in_words) ∧
          ct index ≠ CardVal.claimed then
        (set_card_claimed ct index,
          [ScanEv.setClaimed index,
            ScanEv.scanMem index (max (regionOf (addr_for index)).bottom (addr_for index))
              (min (regionOf (addr_for index)).scanTop (addr_for index + card_size_in_words))])
      else (ct, []) := by
  by_cases hcs : (regionOf (addr_for index)).inCSet
  · simp [scan_card_step, hcs]
  · by_cases hd : ct index = CardVal.dirty
    · simp [scan_card_step, is_card_dirty, hcs, hd]
    · by_cases hcl : ct index = CardVal.claimed
      · simp [scan_card_step, scanCard, is_card_dirty, is_card_claimed, hcs, hd, hcl]
      · by_cases hmr : max (regionOf (addr_for index)).bottom (addr_for index) <
            min (regionOf (addr_for index)).scanTop (addr_for index + card_size_in_words)
        · simp [scan_card_step, scanCard, is_card_dirty, is_card_claimed, hcs, hd, hcl, hmr]
        · simp [scan_card_step, scanCard, is_card_dirty, is_card_claimed, hcs, hd, hcl, hmr]

/-- The card loop never changes the iterator's claimed or complete bits
(it only advances the block-claim counter). -/
theorem scan_rs_cards_preserves_bits (regionOf : Nat → Region) (bs : Nat)
    (cards : List Nat) (cur jump : Nat) (s : HRRS) (ct : CT) :
    (scan_rs_cards regionOf bs cards cur jump s ct).1.claimed = s.claimed ∧
    (scan_rs_cards regionOf bs cards cur jump s ct).1.complete = s.complete := by
  induction cards generalizing cur jump s ct with
  | nil => simp [scan_rs_cards]
  | cons c rest ih =>
    by_cases hj : jump + bs ≤ cur
    · by_cases hlt : cur < s.iter_claimed
      · simpa [scan_rs_cards, hj, hlt, iter_claimed_next] using
          ih (cur + 1) s.iter_claimed
            (HRRS.mk s.claimed s.complete (s.iter_claimed + bs) s.rs_cards) ct
      · simpa [scan_rs_cards, hj, hlt, iter_claimed_next] using
          ih (cur + 1) s.iter_claimed
            (HRRS.mk s.claimed s.complete (s.iter_claimed + bs) s.rs_cards)
            (scan_card_step regionOf ct c).1
    · by_cases hlt : cur < jump
      · simpa [scan_rs_cards, hj, hlt] using ih (cur + 1) jump s ct
      · simpa [scan_rs_cards, hj, hlt] using
          ih (cur + 1) jump s (scan_card_step regionOf ct c).1

/-- Phase A: a worker that wins claim_iter drains the region, scans its
strong code roots, and marks the iterator complete, in that order. -/
theorem doHeapRegion_phase_A_claimant (regionOf : Nat → Region) (bs : Nat)
    (s : HRRS) (ct : CT) (h1 : s.complete = false) (h2 : s.claimed = false) :
    (doHeapRegion regionOf bs false s ct).1.complete = true ∧
    (doHeapRegion regionOf bs false s ct).1.claimed = true ∧
    ∃ evs, (doHeapRegion regionOf bs false s ct).2.2 =
      evs ++ [ScanEv.codeRoots, ScanEv.setIterComplete] := by
  have hbits := scan_rs_cards_preserves_bits regionOf bs s.rs_cards 0
    s.iter_claimed (HRRS.mk true false (s.iter_claimed + bs) s.rs_cards) ct
  simp [doHeapRegion, iter_is_complete, h1, claim_iter, h2, iter_claimed_next,
    set_iter_complete, hbits.1]

/-- Phase A: a worker that loses claim_iter returns with no effects. -/
theorem doHeapRegion_phase_A_loser (regionOf : Nat → Region) (bs : Nat)
    (s : HRRS) (ct : CT) (h1 : s.complete = false) (h2 : s.claimed = true) :
    doHeapRegion regionOf bs false s ct = (s, ct, []) := by
  simp [doHeapRegion, iter_is_complete, h1, claim_iter, h2]

/-- A complete iterator makes doHeapRegion return immediately. -/
theorem doHeapRegion_complete_no_op (regionOf : Nat → Region) (bs : Nat)
    (tryClaimed : Bool) (s : HRRS) (ct : CT) (h : s.complete = true) :
    doHeapRegion regionOf bs tryClaimed s ct = (s, ct, []) := by
  simp [doHeapRegion, iter_is_complete, h]

/-- Once the iterator is complete no Phase A worker performs any body. -/
theorem run_phase_A_complete_zero (regionOf : Nat → Region) (bs : Nat)
    (n : Nat) (s : HRRS) (ct : CT) (h : s.complete = true) :
    (run_phase_A regionOf bs n s ct).2.2 = 0 := by
  induction n generalizing s ct with
  | zero => simp [run_phase_A]
  | succ m ih =>
    simp [run_phase_A, doHeapRegion_complete_no_op regionOf bs false s ct h, ih s ct h]

/-- C4: the scanner's claiming discipline.  scanRS makes two passes over
the CSet regions (Phase A then Phase B with `_try_claimed` set); a
region whose remembered-set iterator is complete is skipped immediately
in either pass; in Phase A a worker that does not win claim_iter does
nothing; a worker that wins drains the region, scans the strong code
roots and marks the iterator complete; and over any sequence of at least
one Phase A worker on a fresh region, exactly one executes the drain
body. -/
theorem scanRS_two_pass_exactly_one_phase_A_claimant :
    (∀ regionOf : Nat → Region, ∀ bs : Nat, ∀ cset ct,
      scanRS regionOf bs cset ct =
        ((collection_set_iterate regionOf bs true
            (collection_set_iterate regionOf bs false cset ct).1
            (collection_set_iterate regionOf bs false cset ct).2.1).1,
          (collection_set_iterate regionOf bs true
            (collection_set_iterate regionOf bs false cset ct).1
            (collection_set_iterate regionOf bs false cset ct).2.1).2.1,
          (collection_set_iterate regionOf bs false cset ct).2.2 ++
          (collection_set_iterate regionOf bs true
            (collection_set_iterate regionOf bs false cset ct).1
            (collection_set_iterate regionOf bs false cset ct).2.1).2.2)) ∧
    (∀ regionOf : Nat → Region, ∀ bs tryClaimed s ct, s.complete = true →
      doHeapRegion regionOf bs tryClaimed s ct = (s, ct, [])) ∧
    (∀ regionOf : Nat → Region, ∀ bs s ct, s.complete = false → s.claimed = true →
      doHeapRegion regionOf bs false s ct = (s, ct, [])) ∧
    (∀ regionOf : Nat → Region, ∀ bs s ct, s.complete = false → s.claimed = false →
      (doHeapRegion regionOf bs false s ct).1.complete = true ∧
      ∃ evs, (doHeapRegion regionOf bs false s ct).2.2 =
        evs ++ [ScanEv.codeRoots, ScanEv.setIterComplete]) ∧
    (∀ regionOf : Nat → Region, ∀ bs n s ct, s.complete = false → s.claimed = false →
      0 < n → (run_phase_A regionOf bs n s ct).2.2 = 1) := by
  refine ⟨fun regionOf bs cset ct => rfl,
    doHeapRegion_complete_no_op,
    doHeapRegion_phase_A_loser,
    fun regionOf bs s ct h1 h2 =>
      ⟨(doHeapRegion_phase_A_claimant regionOf bs s ct h1 h2).1,
        (doHeapRegion_phase_A_claimant regionOf bs s ct h1 h2).2.2⟩,
    ?_⟩
  intro regionOf bs n s ct h1 h2 h3
  cases n with
  | zero => omega
  | succ m =>
    have hcl := doHeapRegion_phase_A_claimant regionOf bs s ct h1 h2
    obtain ⟨evs, hevs⟩ := hcl.2.2
    have hne : (doHeapRegion regionOf bs false s ct).2.2 ≠ [] := by
      rw [hevs]; simp
    simp only [run_phase_A]
    rw [run_phase_A_complete_zero regionOf bs m _ _ hcl.1]
    simp [hne]

/-- Witness for C4: a single fresh region with one remembered-set card,
block size 1, one worker. -/
theorem scanRS_two_pass_exactly_one_phase_A_claimant_witness :
    doHeapRegion (fun _ => oldRegion1000) 1 false (HRRS.mk false true 0 [0])
      (fun _ => CardVal.clean) = (HRRS.mk false true 0 [0], (fun _ => CardVal.clean), []) ∧
    doHeapRegion (fun _ => oldRegion1000) 1 false (HRRS.mk true false 0 [0])
      (fun _ => CardVal.clean) = (HRRS.mk true false 0 [0], (fun _ => CardVal.clean), []) ∧
    (doHeapRegion (fun _ => oldRegion1000) 1 false (HRRS.mk false false 0 [0])
      (fun _ => CardVal.clean)).1.complete = true ∧
    (run_phase_A (fun _ => oldRegion1000) 1 2 (HRRS.mk false false 0 [0])
      (fun _ => CardVal.clean)).2.2 = 1 := by
  refine ⟨?_, ?_, ?_, ?_⟩
  · exact scanRS_two_pass_exactly_one_phase_A_claimant.2.1 _ 1 false _ _ rfl
  · exact scanRS_two_pass_exactly_one_phase_A_claimant.2.2.1 _ 1 _ _ rfl rfl
  · exact (scanRS_two_pass_exactly_one_phase_A_claimant.2.2.2.1 _ 1 _ _ rfl rfl).1
  · exact scanRS_two_pass_exactly_one_phase_A_claimant.2.2.2.2 _ 1 2 _ _ rfl rfl
      (by decide)

/-- C10: `_conc_refine_cards` accounting.  The concurrent path bumps the
counter exactly when it reaches RetPoint.done, i.e. when the card's
object iteration completed successfully, and on no early return and not
on the redirty path; the in-pause path bumps it exactly when it reached
the object iteration (scanned ≠ none), independently of whether
references into the collection set were found. -/
theorem conc_refine_cards_accounting :
    (∀ env : ConcEnv, ∀ s cp,
      (refine_card_concurrently env s cp).st.conc_refine_cards =
        (if (refine_card_concurrently env s cp).ret = RetPoint.done then
          s.conc_refine_cards + 1 else s.conc_refine_cards)) ∧
    (∀ env : PauseEnv, ∀ s cp,
      (refine_card_during_gc env s cp).st.conc_refine_cards =
        (if (refine_card_during_gc env s cp).scanned = none then
          s.conc_refine_cards else s.conc_refine_cards + 1)) := by
  constructor
  · intro env s cp
    simp only [refine_card_concurrently]
    split
    · simp
    · split
      · simp
      · split
        · rcases hins : env.hotInsert cp with _ | cp2
          · simp
          · simp only []
            split
            · exact refine_card_concurrently_scan_count env s cp _
            · split
              · simp
              · exact refine_card_concurrently_scan_count env s cp2 _
        · exact refine_card_concurrently_scan_count env s cp _
  · intro env s cp
    simp only [refine_card_during_gc]
    split
    · simp
    · split
      · simp
      · split
        · simp
        · split
          · simp
          · simp

/-- C6: after cleanup_after_oops_into_collection_set_do every card-table
byte is CLEAN and the `_cset_rs_update_cl` slots stay empty; and
oops_into_collection_set_do stashes the worker's closure into its slot
for the duration of its body (which never writes the slots) and clears
the slot again before returning. -/
theorem cleanup_leaves_cards_clean_and_slots_empty :
    (∀ st : LifecycleState, (∀ o ∈ st.cset_rs_update_cl, o = none) →
      (∀ i, (cleanup_after_oops_into_collection_set_do st).card i = CardVal.clean) ∧
      (∀ o ∈ (cleanup_after_oops_into_collection_set_do st).cset_rs_update_cl,
        o = none)) ∧
    (∀ body : LifecycleState → LifecycleState, ∀ w oc, ∀ st : LifecycleState,
      (∀ u, (body u).cset_rs_update_cl = u.cset_rs_update_cl) →
      (oops_into_collection_set_do body w oc st).cset_rs_update_cl =
        st.cset_rs_update_cl.set w none ∧
      (body (LifecycleState.mk (st.cset_rs_update_cl.set w (some oc)) st.card
        st.cards_scanned st.total_cards_scanned st.refine_concurrent
        st.into_cset_buffers st.main_dcqs st.evacuation_failed)).cset_rs_update_cl =
        st.cset_rs_update_cl.set w (some oc)) := by
  constructor
  · intro st h
    constructor
    · intro i
      cases he : st.evacuation_failed <;>
        simp [cleanup_after_oops_into_collection_set_do, cleanUpCardTable, he]
    · intro o ho
      apply h
      cases he : st.evacuation_failed <;>
        simpa [cleanup_after_oops_into_collection_set_do, cleanUpCardTable, he] using ho
  · intro body w oc st hbody
    constructor
    · simp [oops_into_collection_set_do, hbody, List.set_set]
    · rw [hbody]

/-- Witness for C6: two empty worker slots, a fully dirty card table, an
identity body, worker 0 stashing closure 5. -/
theorem cleanup_leaves_cards_clean_and_slots_empty_witness :
    (cleanup_after_oops_into_collection_set_do
      (LifecycleState.mk [none, none] (fun _ => CardVal.dirty) (some [3, 4]) 0 false
        [7] [] true)).card 9 = CardVal.clean ∧
    (oops_into_collection_set_do (fun u => u) 0 5
      (LifecycleState.mk [none, none] (fun _ => CardVal.dirty) (some [3, 4]) 0 false
        [7] [] true)).cset_rs_update_cl =
      ([none, none] : List (Option Nat)).set 0 none := by
  constructor
  · exact (cleanup_leaves_cards_clean_and_slots_empty.1
      (LifecycleState.mk [none, none] (fun _ => CardVal.dirty) (some [3, 4]) 0 false
        [7] [] true) (by decide)).1 9
  · exact (cleanup_leaves_cards_clean_and_slots_empty.2 (fun u => u) 0 5
      (LifecycleState.mk [none, none] (fun _ => CardVal.dirty) (some [3, 4]) 0 false
        [7] [] true) (fun u => rfl)).1

/-! #### Rebuild accounting (C7) -/

theorem rebuild_chunks_pos (tams tars cw : Nat) (hr : RegionModel) (cur : Nat)
    (h : cur < tars ∧ 0 < cw) :
    rebuild_chunks tams tars cw hr cur =
      (rebuild_rem_set_in_region tams tars hr (max hr.bottom cur)
        (min (cur + cw) tars)).markedBytes +
      rebuild_chunks tams tars cw hr (cur + cw) := by
  rw [rebuild_chunks.eq_def, dif_pos h]

theorem rebuild_chunks_neg (tams tars cw : Nat) (hr : RegionModel) (cur : Nat)
    (h : ¬ (cur < tars ∧ 0 < cw)) :
    rebuild_chunks tams tars cw hr cur = 0 := by
  rw [rebuild_chunks.eq_def, dif_neg h]

theorem chunks_sum_pos (tams tars cw pos0 : Nat) (objs : List Obj) (cur : Nat)
    (h : cur < tars ∧ 0 < cw) :
    chunks_sum tams tars cw pos0 objs cur =
      sum_contrib tams cur (min (cur + cw) tars) pos0 objs +
      chunks_sum tams tars cw pos0 objs (cur + cw) := by
  rw [chunks_sum.eq_def, dif_pos h]

theorem chunks_sum_neg (tams tars cw pos0 : Nat) (objs : List Obj) (cur : Nat)
    (h : ¬ (cur < tars ∧ 0 < cw)) :
    chunks_sum tams tars cw pos0 objs cur = 0 := by
  rw [chunks_sum.eq_def, dif_neg h]

theorem obj_chunk_sum_pos (tams tars cw pos : Nat) (o : Obj) (cur : Nat)
    (h : cur < tars ∧ 0 < cw) :
    obj_chunk_sum tams tars cw pos o cur =
      perObjContrib tams cur (min (cur + cw) tars) pos o +
      obj_chunk_sum tams tars cw pos o (cur + cw) := by
  rw [obj_chunk_sum.eq_def, dif_pos h]

theorem obj_chunk_sum_neg (tams tars cw pos : Nat) (o : Obj) (cur : Nat)
    (h : ¬ (cur < tars ∧ 0 < cw)) :
    obj_chunk_sum tams tars cw pos o cur = 0 := by
  rw [obj_chunk_sum.eq_def, dif_neg h]

/-- scan_for_references_words with propositional conditions. -/
theorem scan_for_references_words_eq (o : Obj) (pos mrS mrE : Nat) :
    scan_for_references_words o pos mrS mrE =
      if o.isArray = false ∨ (mrS ≤ pos ∧ pos + o.size ≤ mrE) then o.size
      else min (pos + o.size) mrE - max pos mrS := by
  simp [scan_for_references_words, Bool.or_eq_true, Bool.and_eq_true,
    Bool.not_eq_true', decide_eq_true_eq]

/-- perObjContrib with propositional conditions. -/
theorem perObjContrib_eq (tams mrS mrE pos : Nat) (o : Obj) :
    perObjContrib tams mrS mrE pos o =
      if pos + o.size ≤ mrS ∨ mrE ≤ pos then 0
      else if ((tams ≤ pos ∨ o.marked = true) ∧ (mrS ≤ pos ∨ o.isArray = true)) ∧
          pos < tams then
        scan_for_references_words o pos mrS mrE
      else 0 := by
  simp [perObjContrib, Bool.or_eq_true, Bool.and_eq_true, decide_eq_true_eq]

theorem sum_contrib_zero_of_le (tams mrS mrE : Nat) (objs : List Obj) :
    ∀ pos, mrE ≤ pos → sum_contrib tams mrS mrE pos objs = 0 := by
  induction objs with
  | nil => intro pos _; rfl
  | cons o rest ih =>
    intro pos h
    simp [sum_contrib, perObjContrib_eq, Or.inr h, ih (pos + o.size) (by omega)]

/-- The rebuilder's chunk accounting equals the per-object contribution
sum. -/
theorem rebuild_marked_words_eq_sum_contrib (tams mrS mrE : Nat) (objs : List Obj) :
    ∀ pos, rebuild_marked_words tams mrS mrE pos objs =
      sum_contrib tams mrS mrE pos objs := by
  induction objs with
  | nil => intro pos; rfl
  | cons o rest ih =>
    intro pos
    by_cases h1 : pos + o.size ≤ mrS
    · simp [rebuild_marked_words, sum_contrib, perObjContrib, h1, ih]
    · by_cases h2 : mrE ≤ pos
      · simp [rebuild_marked_words, sum_contrib, perObjContrib, h1, h2,
          sum_contrib_zero_of_le tams mrS mrE rest (pos + o.size) (by omega)]
      · simp [rebuild_marked_words, sum_contrib, perObjContrib, h1, h2, ih]

theorem chunks_sum_nil (tams tars cw pos0 cur : Nat) :
    chunks_sum tams tars cw pos0 [] cur = 0 := by
  by_cases h : cur < tars ∧ 0 < cw
  · rw [chunks_sum_pos tams tars cw pos0 [] cur h,
      chunks_sum_nil tams tars cw pos0 (cur + cw)]
    rfl
  · exact chunks_sum_neg tams tars cw pos0 [] cur h
termination_by tars - cur
decreasing_by omega

/-- Splitting the chunk-summed contributions at the head object. -/
theorem chunks_sum_cons (tams tars cw : Nat) (o : Obj) (rest : List Obj)
    (pos cur : Nat) :
    chunks_sum tams tars cw pos (o :: rest) cur =
      obj_chunk_sum tams tars cw pos o cur +
      chunks_sum tams tars cw (pos + o.size) rest cur := by
  by_cases h : cur < tars ∧ 0 < cw
  · rw [chunks_sum_pos tams tars cw pos (o :: rest) cur h,
      chunks_sum_pos tams tars cw (pos + o.size) rest cur h,
      obj_chunk_sum_pos tams tars cw pos o cur h,
      chunks_sum_cons tams tars cw o rest pos (cur + cw)]
    simp only [sum_contrib]
    omega
  · rw [chunks_sum_neg tams tars cw pos (o :: rest) cur h,
      chunks_sum_neg tams tars cw (pos + o.size) rest cur h,
      obj_chunk_sum_neg tams tars cw pos o cur h]
termination_by tars - cur
decreasing_by omega

theorem obj_chunk_sum_zero_of_le (tams tars cw pos : Nat) (o : Obj) (cur : Nat)
    (h : pos + o.size ≤ cur) :
    obj_chunk_sum tams tars cw pos o cur = 0 := by
  by_cases hg : cur < tars ∧ 0 < cw
  · rw [obj_chunk_sum_pos tams tars cw pos o cur hg,
      obj_chunk_sum_zero_of_le tams tars cw pos o (cur + cw) (by omega)]
    simp [perObjContrib_eq, Or.inl h]
  · exact obj_chunk_sum_neg tams tars cw pos o cur hg
termination_by tars - cur
decreasing_by omega

/-- A non-objArray contributes nothing to chunks past its start. -/
theorem obj_chunk_sum_nonarray_after (tams tars cw pos : Nat) (o : Obj) (cur : Nat)
    (harr : o.isArray = false) (h : pos < cur) :
    obj_chunk_sum tams tars cw pos o cur = 0 := by
  by_cases hg : cur < tars ∧ 0 < cw
  · rw [obj_chunk_sum_pos tams tars cw pos o cur hg,
      obj_chunk_sum_nonarray_after tams tars cw pos o (cur + cw) harr (by omega)]
    have hnle : ¬ cur ≤ pos := by omega
    simp [perObjContrib_eq, harr, hnle]
  · exact obj_chunk_sum_neg tams tars cw pos o cur hg
termination_by tars - cur
decreasing_by omega

/-- A non-objArray is counted exactly once over the chunks, in the chunk
holding its start, and only when it is marked below TAMS. -/
theorem obj_chunk_sum_nonarray (tams tars cw pos : Nat) (o : Obj) (cur : Nat)
    (harr : o.isArray = false) (hcur : cur ≤ pos) (hend : pos + o.size ≤ tars)
    (hsz : 0 < o.size) (hcw : 0 < cw) :
    obj_chunk_sum tams tars cw pos o cur =
      if pos < tams ∧ o.marked = true then o.size else 0 := by
  have hg : cur < tars ∧ 0 < cw := ⟨by omega, hcw⟩
  rw [obj_chunk_sum_pos tams tars cw pos o cur hg]
  by_cases hin : pos < cur + cw
  · rw [obj_chunk_sum_nonarray_after tams tars cw pos o (cur + cw) harr (by omega)]
    rw [perObjContrib_eq, scan_for_references_words_eq]
    have h1 : ¬ (pos + o.size ≤ cur ∨ min (cur + cw) tars ≤ pos) := by omega
    rw [if_neg h1]
    by_cases ht : pos < tams
    · have hnt : ¬ tams ≤ pos := by omega
      cases hm : o.marked <;> simp [ht, hnt, hcur, hm, harr]
    · simp [ht]
  · have h1 : pos + o.size ≤ cur ∨ min (cur + cw) tars ≤ pos := by omega
    rw [perObjContrib_eq, if_pos h1,
      obj_chunk_sum_nonarray tams tars cw pos o (cur + cw) harr (by omega) hend hsz hcw]
    simp
termination_by tars - cur
decreasing_by omega

/-- An objArray marked below TAMS contributes, over the chunks from
`cur` on, exactly the part of itself lying at or after `cur`. -/
theorem obj_chunk_sum_array (tams tars cw pos : Nat) (o : Obj) (cur : Nat)
    (harr : o.isArray = true) (hend : pos + o.size ≤ tars)
    (hsz : 0 < o.size) (hcw : 0 < cw) :
    obj_chunk_sum tams tars cw pos o cur =
      if pos < tams ∧ o.marked = true then
        pos + o.size - min (pos + o.size) (max cur pos) else 0 := by
  by_cases hg : cur < tars ∧ 0 < cw
  · rw [obj_chunk_sum_pos tams tars cw pos o cur hg,
      obj_chunk_sum_array tams tars cw pos o (cur + cw) harr hend hsz hcw,
      perObjContrib_eq, scan_for_references_words_eq]
    cases hm : o.marked <;>
      simp only [hm, harr, Bool.true_eq_false, Bool.false_eq_true, false_or, or_true,
        or_false, and_true, and_false, true_and, false_and, if_false, if_true] <;>
      · simp only [Nat.min_def, Nat.max_def]
        split_ifs <;> omega
  · rw [obj_chunk_sum_neg tams tars cw pos o cur hg]
    have h2 : tars ≤ cur := by omega
    simp only [Nat.min_def, Nat.max_def]
    split_ifs <;> omega
termination_by tars - cur
decreasing_by omega

/-- Summing the chunk contributions over an object list tiling
`[pos, tars)` yields exactly the marked words below TAMS. -/
theorem chunks_sum_eq_marked_words (tams tars cw : Nat) (hcw : 0 < cw) :
    ∀ objs : List Obj, ∀ pos cur0, cur0 ≤ pos → pos + objs_size objs = tars →
      (∀ o ∈ objs, 0 < o.size) →
      chunks_sum tams tars cw pos objs cur0 = marked_words_below tams pos objs := by
  intro objs
  induction objs with
  | nil =>
    intro pos cur0 _ _ _
    simpa [marked_words_below] using chunks_sum_nil tams tars cw pos cur0
  | cons o rest ih =>
    intro pos cur0 hc ht hs
    have hsz : 0 < o.size := hs o (by simp)
    have hrest : ∀ x ∈ rest, 0 < x.size := fun x hx => hs x (by simp [hx])
    have ht2 : pos + o.size + objs_size rest = tars := by
      simp only [objs_size] at ht; omega
    have hend : pos + o.size ≤ tars := by omega
    rw [chunks_sum_cons, ih (pos + o.size) cur0 (by omega) ht2 hrest]
    simp only [marked_words_below]
    cases harr : o.isArray
    · rw [obj_chunk_sum_nonarray tams tars cw pos o cur0 harr hc hend hsz hcw]
      cases hm : o.marked <;> by_cases htl : pos < tams <;> simp [hm, htl]
    · rw [obj_chunk_sum_array tams tars cw pos o cur0 harr hend hsz hcw]
      have hmax : max cur0 pos = pos := by omega
      rw [hmax]
      have hmin : min (pos + o.size) pos = pos := by omega
      rw [hmin]
      cases hm : o.marked <;> by_cases htl : pos < tams <;> simp [hm, htl] <;> omega

/-- For a non-humongous region the rebuilder's chunk loop computes the
chunk-summed per-object contributions, in bytes. -/
theorem rebuild_chunks_eq_chunks_sum (tams tars cw : Nat) (hr : RegionModel)
    (hh : hr.isHum = false) (cur : Nat) (hb : hr.bottom ≤ cur) :
    rebuild_chunks tams tars cw hr cur =
      chunks_sum tams tars cw hr.bottom hr.objs cur * HeapWordSize := by
  by_cases hg : cur < tars ∧ 0 < cw
  · rw [rebuild_chunks_pos tams tars cw hr cur hg,
      chunks_sum_pos tams tars cw hr.bottom hr.objs cur hg,
      rebuild_chunks_eq_chunks_sum tams tars cw hr hh (cur + cw) (by omega)]
    simp only [rebuild_rem_set_in_region, hh, Bool.false_eq_true, if_false,
      Nat.max_eq_right hb]
    rw [rebuild_marked_words_eq_sum_contrib]
    simp [HeapWordSize]
    omega
  · rw [rebuild_chunks_neg tams tars cw hr cur hg,
      chunks_sum_neg tams tars cw hr.bottom hr.objs cur hg]
    simp
termination_by tars - cur
decreasing_by omega

/-- A live humongous start region with TAMS above bottom accumulates the
byte size of every chunk of `[cur, TARS)`. -/
theorem rebuild_chunks_hum_live (tams tars cw bottom : Nat) (o : Obj) (cur : Nat)
    (hlive : is_humongous_live o.marked tams tars = true)
    (htams : tams ≠ bottom) (hb : bottom ≤ cur) (hcw : 0 < cw) :
    rebuild_chunks tams tars cw (RegionModel.mk true bottom [o]) cur =
      (tars - cur) * HeapWordSize := by
  by_cases hg : cur < tars ∧ 0 < cw
  · rw [rebuild_chunks_pos tams tars cw (RegionModel.mk true bottom [o]) cur hg,
      rebuild_chunks_hum_live tams tars cw bottom o (cur + cw) hlive htams
        (by omega) hcw]
    simp only [rebuild_rem_set_in_region, hlive, if_true, ne_eq, htams,
      not_false_iff, Nat.max_eq_right hb]
    simp [HeapWordSize]
    omega
  · rw [rebuild_chunks_neg tams tars cw (RegionModel.mk true bottom [o]) cur hg]
    have h2 : tars ≤ cur := by omega
    simp [HeapWordSize]
    omega
termination_by tars - cur
decreasing_by omega

/-- A dead humongous object, or one whose TAMS equals the region bottom,
contributes no marked bytes from any chunk. -/
theorem rebuild_chunks_hum_zero (tams tars cw bottom : Nat) (o : Obj) (cur : Nat)
    (h : is_humongous_live o.marked tams tars = false ∨ tams = bottom) :
    rebuild_chunks tams tars cw (RegionModel.mk true bottom [o]) cur = 0 := by
  by_cases hg : cur < tars ∧ 0 < cw
  · rw [rebuild_chunks_pos tams tars cw (RegionModel.mk true bottom [o]) cur hg,
      rebuild_chunks_hum_zero tams tars cw bottom o (cur + cw) h]
    rcases h with h | h
    · simp [rebuild_rem_set_in_region, h]
    · simp [rebuild_rem_set_in_region, h]
      split <;> rfl
  · rw [rebuild_chunks_neg tams tars cw (RegionModel.mk true bottom [o]) cur hg]
termination_by tars - cur
decreasing_by omega

/-- C7: for a region whose rebuild completes without abort and without
eager reclaim, the marked bytes accumulated over all chunks from objects
below TAMS equal the region's mark-phase next_marked_bytes.  The object
list tiles `[bottom, TARS)`, objects are non-empty, and a humongous
start region holds exactly one object with TAMS at the bottom or at the
region's single-object top. -/
theorem rebuild_total_marked_bytes_eq_next_marked_bytes
    (tams tars cw : Nat) (hr : RegionModel)
    (hcw : 0 < cw)
    (htile : hr.bottom + objs_size hr.objs = tars)
    (hsz : ∀ o ∈ hr.objs, 0 < o.size)
    (hhum : hr.isHum = true →
      (∃ o, hr.objs = [o]) ∧ (tams = hr.bottom ∨ tams = tars)) :
    rebuild_chunks tams tars cw hr hr.bottom = next_marked_bytes tams hr := by
  cases hh : hr.isHum
  · rw [rebuild_chunks_eq_chunks_sum tams tars cw hr hh hr.bottom (Nat.le_refl _),
      chunks_sum_eq_marked_words tams tars cw hcw hr.objs hr.bottom hr.bottom
        (Nat.le_refl _) htile hsz]
    rfl
  · obtain ⟨⟨o, hobj⟩, htams⟩ := hhum hh
    obtain ⟨hum, bottom, objs⟩ := hr
    simp only at hh hobj
    subst hh hobj
    have hsz1 : 0 < o.size := hsz o (by simp)
    have htile1 : bottom + o.size = tars := by
      simp only [objs_size] at htile; omega
    rcases htams with htams | htams
    · rw [rebuild_chunks_hum_zero tams tars cw bottom o bottom (Or.inr htams)]
      simp only [next_marked_bytes, marked_words_below, htams]
      simp
    · cases hm : o.marked
      · have hdead : is_humongous_live o.marked tams tars = false := by
          simp [is_humongous_live, hm]
          omega
        rw [rebuild_chunks_hum_zero tams tars cw bottom o bottom (Or.inl hdead)]
        simp only [next_marked_bytes, marked_words_below, hm]
        simp
      · have hlive : is_humongous_live o.marked tams tars = true := by
          simp [is_humongous_live, hm]
        have hne : tams ≠ bottom := by omega
        rw [rebuild_chunks_hum_live tams tars cw bottom o bottom hlive hne
          (Nat.le_refl _) hcw]
        simp only [next_marked_bytes, marked_words_below, hm]
        have hlt : bottom < tams := by omega
        simp [hlt]
        omega

/-- Witness for C7: a region of three objects (a marked non-array below
TAMS, an unmarked one, and a marked objArray straddling chunks), chunk
size 2, TAMS at word 6, TARS at word 9. -/
theorem rebuild_total_marked_bytes_eq_next_marked_bytes_witness :
    rebuild_chunks 6 9 2
      (RegionModel.mk false 0 [Obj.mk 2 false true, Obj.mk 1 false false,
        Obj.mk 3 true true, Obj.mk 3 false true]) 0 =
      next_marked_bytes 6
        (RegionModel.mk false 0 [Obj.mk 2 false true, Obj.mk 1 false false,
          Obj.mk 3 true true, Obj.mk 3 false true]) :=
  rebuild_total_marked_bytes_eq_next_marked_bytes 6 9 2
    (RegionModel.mk false 0 [Obj.mk 2 false true, Obj.mk 1 false false,
      Obj.mk 3 true true, Obj.mk 3 false true])
    (by decide) (by decide) (by decide) (fun h => absurd h (by decide))

/-- C8: in the rebuilder a humongous object is live exactly when the
mark bitmap marks its start or TARS exceeds TAMS; when live its
references are iterated restricted to the current chunk's MemRegion, and
when dead the chunk iterates nothing and returns zero marked bytes. -/
theorem rebuild_humongous_live_iff_and_chunk_restriction :
    (∀ marked : Bool, ∀ tams tars : Nat,
      (is_humongous_live marked tams tars = true ↔ (marked = true ∨ tams < tars))) ∧
    (∀ tams tars : Nat, ∀ hr : RegionModel, ∀ mrS mrE : Nat, ∀ o rest,
      hr.isHum = true → hr.objs = o :: rest →
      (is_humongous_live o.marked tams tars = true →
        rebuild_rem_set_in_region tams tars hr mrS mrE =
          RebuildOut.mk (some (mrS, mrE))
            (if tams ≠ hr.bottom then (mrE - mrS) * HeapWordSize else 0)) ∧
      (is_humongous_live o.marked tams tars = false →
        rebuild_rem_set_in_region tams tars hr mrS mrE = RebuildOut.mk none 0)) := by
  constructor
  · intro marked tams tars
    simp [is_humongous_live]
  · intro tams tars hr mrS mrE o rest hh hobj
    constructor
    · intro hlive
      simp [rebuild_rem_set_in_region, hh, hobj, hlive]
    · intro hdead
      simp [rebuild_rem_set_in_region, hh, hobj, hdead]

/-- Witness for C8: a marked humongous object of 100 words at bottom 0,
TAMS = TARS = 100, chunk `[0, 32)`; and an unmarked one with the same
geometry. -/
theorem rebuild_humongous_live_iff_and_chunk_restriction_witness :
    (is_humongous_live true 100 100 = true ↔ (true = true ∨ 100 < 100)) ∧
    rebuild_rem_set_in_region 100 100
      (RegionModel.mk true 0 [Obj.mk 100 false true]) 0 32 =
      RebuildOut.mk (some (0, 32))
        (if (100 : Nat) ≠ (RegionModel.mk true 0 [Obj.mk 100 false true]).bottom then
          (32 - 0) * HeapWordSize else 0) ∧
    rebuild_rem_set_in_region 100 100
      (RegionModel.mk true 0 [Obj.mk 100 false false]) 0 32 =
      RebuildOut.mk none 0 := by
  refine ⟨?_, ?_, ?_⟩
  · exact rebuild_humongous_live_iff_and_chunk_restriction.1 true 100 100
  · exact (rebuild_humongous_live_iff_and_chunk_restriction.2 100 100
      (RegionModel.mk true 0 [Obj.mk 100 false true]) 0 32
      (Obj.mk 100 false true) [] rfl rfl).1 (by decide)
  · exact (rebuild_humongous_live_iff_and_chunk_restriction.2 100 100
      (RegionModel.mk true 0 [Obj.mk 100 false false]) 0 32
      (Obj.mk 100 false false) [] rfl rfl).2 (by decide)

end G1
